import Mathlib

/-!
Verification of the schema-driven endpoint contract system of the
`cdk-zod-agent` repository: the generated client invocation path
(`buildClientFunction` in `src/lib/package/helpers/endpoints.ts`), the
path-parameter derivation (`zodPathParametersSchema`), the IAM transport
invoker and request signer (`makeIAMRequest` / `signRequest`), and the
server-side handler wrapper (`initApiHandler`).

JSON values are modelled by an inductive `Json` type.  The platform
functions `JSON.stringify` / `JSON.parse` (which are not part of the
repository) are modelled abstractly: a serialized JSON payload is the
constructor `HttpBody.encoded j`, and decoding it recovers `j` (the
platform inverse property).  Zod schemas are modelled as parse functions
returning either the validated (possibly transformed) value, as Zod's
`.parse` does, or an error message, as Zod's thrown `ZodError` does;
`.safeParse` succeeding corresponds to the `.ok` case.
-/

namespace CZA

/-- JSON-like runtime values (numbers restricted to integers; the claims
under study do not involve fractional numerics). -/
inductive Json where
  | null
  | bool (b : Bool)
  | num (n : Int)
  | str (s : String)
  | arr (elems : List Json)
  | obj (fields : List (String × Json))

/-- JavaScript truthiness of a `Json` value: `null`, `false`, `0` and the
empty string are falsy; arrays and objects are always truthy. -/
def jsTruthy : Json → Bool
  | .null => false
  | .bool b => b
  | .num n => n != 0
  | .str s => s ≠ ""
  | .arr _ => true
  | .obj _ => true

/-- An HTTP body: either a raw string passed through unchanged, or the
platform serialization `JSON.stringify j` of a JSON value, modelled
abstractly by the constructor `encoded j`. -/
inductive HttpBody where
  | raw (s : String)
  | encoded (j : Json)

/-- Decoding an HTTP body with `JSON.parse`.  On `encoded j` this recovers
`j` (the platform inverse `JSON.parse (JSON.stringify j) = j`); raw
pass-through strings are opaque here and unused by the claims. -/
def jsonDecode : HttpBody → Option Json
  | .encoded j => some j
  | .raw _ => none

/-- A Zod schema, modelled by its `.parse` behaviour: the validated
(possibly transformed) value on success, or the `ZodError` message. -/
structure Schema where
  parse : Json → Except String Json

/-- Allowed HTTP methods (`HttpMethod` in `endpoints.ts`). -/
inductive HttpMethod where
  | GET | POST | PUT | DELETE
deriving DecidableEq, Repr

/-- An endpoint's pure configuration (`ApiEndpointDefinition` in
`endpoints.ts`): path template, method, optional schemas, description. -/
structure ApiEndpointDefinition where
  path : String
  method : HttpMethod
  description : Option String := none
  requestSchema : Option Schema := none
  responseSchema : Option Schema := none

/-- The opening brace character. -/
def lbrace : Char := Char.ofNat 123

/-- The closing brace character. -/
def rbrace : Char := Char.ofNat 125

/-- Characters left unescaped by the platform `encodeURIComponent`:
alphanumerics and `- _ . ! ~ * ' ( )` (apostrophe written by code 39). -/
def isUnreservedURIChar (c : Char) : Bool :=
  c.isAlphanum || c = '-' || c = '_' || c = '.' || c = '!' || c = '~' ||
    c = '*' || c.toNat = 39 || c = '(' || c = ')'

/-- Uppercase hexadecimal digits. -/
def hexDigits : List Char :=
  ['0', '1', '2', '3', '4', '5', '6', '7', '8', '9', 'A', 'B', 'C', 'D', 'E', 'F']

/-- The hexadecimal digit character for `n % 16`. -/
def hexDigitChar (n : Nat) : Char := hexDigits.getD (n % 16) '0'

/-- UTF-8 bytes of a character (scalar values, as produced for the
well-formed strings JavaScript percent-encodes). -/
def utf8Bytes (c : Char) : List Nat :=
  let n := c.toNat
  if n < 128 then [n]
  else if n < 2048 then [192 + n / 64, 128 + n % 64]
  else if n < 65536 then [224 + n / 4096, 128 + (n / 64) % 64, 128 + n % 64]
  else [240 + n / 262144, 128 + (n / 4096) % 64, 128 + (n / 64) % 64, 128 + n % 64]

/-- Percent-encoding of one byte, e.g. byte 36 becomes `%24`. -/
def percentByte (b : Nat) : List Char := ['%', hexDigitChar (b / 16), hexDigitChar b]

/-- The platform `encodeURIComponent`, on character lists. -/
def encodeURIComponentChars (cs : List Char) : List Char :=
  cs.flatMap fun c =>
    if isUnreservedURIChar c then [c] else (utf8Bytes c).flatMap percentByte

/-- The platform `encodeURIComponent`. -/
def encodeURIComponent (s : String) : String := ⟨encodeURIComponentChars s.data⟩

/-- Boolean prefix test on character lists. -/
def leadsWith : List Char → List Char → Bool
  | [], _ => true
  | _ :: _, [] => false
  | a :: as, b :: bs => a = b && leadsWith as bs

/-- JavaScript `String.prototype.replace` with a string pattern: replaces
only the first occurrence of `pat`, scanning left to right.  (`$`-escape
sequences in the replacement never arise in this code base: the
replacement is always `encodeURIComponent` output, which contains no `$`.) -/
def replaceFirstList (pat repl : List Char) : List Char → List Char
  | [] => if pat.isEmpty then repl else []
  | c :: rest =>
    if leadsWith pat (c :: rest) then repl ++ (c :: rest).drop pat.length
    else c :: replaceFirstList pat repl rest

/-- JavaScript `s.replace(pat, repl)` on strings. -/
def jsReplaceFirst (s pat repl : String) : String :=
  ⟨replaceFirstList pat.data repl.data s.data⟩

/-- The leading-slash normalization in `buildClientFunction`
(`if (!url.startsWith("/")) url = "/" + url`), with the one-character
`startsWith` test expressed on the character list. -/
def normalizeLeadingSlash (path : String) : String :=
  match path.data with
  | c :: _ => if c = '/' then path else "/" ++ path
  | [] => "/" ++ path

/-- The URL-building loop of `buildClientFunction`: for each entry of
`pathParameters`, in order, replace the first occurrence of the token
`\x7bparam\x7d` with the `encodeURIComponent`-escaped value. -/
def substitutePath (path : String) (pathParameters : List (String × String)) : String :=
  pathParameters.foldl
    (fun url pv =>
      jsReplaceFirst url ⟨lbrace :: pv.1.data ++ [rbrace]⟩ (encodeURIComponent pv.2))
    (normalizeLeadingSlash path)

/-- The argument object accepted by a generated client function:
`\x7b body?, headers?, pathParameters, query? \x7d`. -/
structure ClientParams where
  body : Option Json := none
  headers : Option (List (String × String)) := none
  pathParameters : List (String × String) := []
  query : Option (List (String × String)) := none

/-- JavaScript truthiness of the `params.body` argument (`undefined` when
absent). -/
def bodyTruthy (params : ClientParams) : Bool :=
  match params.body with
  | some b => jsTruthy b
  | none => false

/-- The request description handed by `buildClientFunction` to
`iamRequest`: domain, method, headers, substituted path, query, and the
serialized body (`params.body ? JSON.stringify(params.body) : undefined`). -/
structure OutboundRequest where
  domain : String
  method : HttpMethod
  headers : Option (List (String × String))
  path : String
  query : Option (List (String × String))
  body : Option HttpBody

/-- The request construction inside `buildClientFunction` (everything
between validation and the `iamRequest` call). -/
def clientBuildRequest (domain : String) (endpoint : ApiEndpointDefinition)
    (params : ClientParams) : OutboundRequest :=
  { domain := domain
    method := endpoint.method
    headers := params.headers
    path := substitutePath endpoint.path params.pathParameters
    query := params.query
    body :=
      match params.body with
      | some b => if jsTruthy b then some (HttpBody.encoded b) else none
      | none => none }

/-- The request-validation step of `buildClientFunction`: runs only when a
request schema exists and `params.body` is truthy; returns the thrown
error message, if any. -/
def clientValidateBody (endpoint : ApiEndpointDefinition) (key : String)
    (params : ClientParams) : Option String :=
  match endpoint.requestSchema, params.body with
  | some sch, some b =>
    if jsTruthy b then
      match sch.parse b with
      | .error e => some ("Validation error in apiClient." ++ key ++ ": " ++ e)
      | .ok _ => none
    else none
  | _, _ => none

/-- The pure part of a generated client function before the transport call:
either the validation error thrown before any network request, or the
`OutboundRequest` passed on to `iamRequest`. -/
def buildClientPre (domain : String) (endpoint : ApiEndpointDefinition) (key : String)
    (params : ClientParams) : Except String OutboundRequest :=
  match clientValidateBody endpoint key params with
  | some e => .error e
  | none => .ok (clientBuildRequest domain endpoint params)

/-- The response-validation step of `buildClientFunction`: when a response
schema exists and fails, the error is only logged (returned here as the
warning that `console.error` receives); nothing is thrown. -/
def clientResponseCheck (endpoint : ApiEndpointDefinition) (resp : Json) : Option String :=
  match endpoint.responseSchema with
  | some sch =>
    match sch.parse resp with
    | .error e => some e
    | .ok _ => none
  | none => none

/-- The observable outcome of one client invocation: the returned value or
thrown error, plus the logged response-validation warning, if any. -/
structure ClientOutcome where
  result : Except String Json
  responseWarning : Option String

/-- A full generated-client invocation (`buildClientFunction`), with the
transport (`iamRequest`, i.e. sign + fetch) supplied as an oracle:
validate the body (throwing before any transport call on failure), build
the request, call the transport, check the response schema (logging only),
and return the response unchanged. -/
def clientInvoke (domain : String) (endpoint : ApiEndpointDefinition) (key : String)
    (params : ClientParams) (transport : OutboundRequest → Except String Json) :
    ClientOutcome :=
  match buildClientPre domain endpoint key params with
  | .error e => ⟨.error e, none⟩
  | .ok req =>
    match transport req with
    | .error e => ⟨.error e, none⟩
    | .ok resp => ⟨.ok resp, clientResponseCheck endpoint resp⟩

/-! ### Path-parameter derivation (`zodPathParametersSchema`) -/

/-- One left-to-right scan of the regex `\\\x7b([^\x7d]+)\\\x7d`, as the
`while ((match = paramRegex.exec(path)) !== null)` loop of
`zodPathParametersSchema` performs it.  The second argument is `none`
outside a match attempt, and `some acc` after an opening brace with the
characters matched so far by `[^\x7d]+` collected in `acc` (reversed); a
closing brace completes the token when `acc` is nonempty, and a failed
attempt (empty token) resumes scanning after the opening brace, which is
where the regex engine finds its next possible match. -/
def extractTokensGo : List Char → Option (List Char) → List String
  | [], _ => []
  | c :: rest, none =>
    if c = lbrace then extractTokensGo rest (some [])
    else extractTokensGo rest none
  | c :: rest, some acc =>
    if c = rbrace then
      if acc.isEmpty then extractTokensGo rest none
      else (⟨acc.reverse⟩ : String) :: extractTokensGo rest none
    else extractTokensGo rest (some (c :: acc))

/-- The matches of the regex `\\\x7b([^\x7d]+)\\\x7d` over a character
list, leftmost first, non-overlapping. -/
def extractTokens (cs : List Char) : List String := extractTokensGo cs none

/-- The single marker for the `z.string()` schema every derived path
parameter is mapped to. -/
inductive ZodField where
  | string
deriving DecidableEq, Repr

/-- JavaScript object-property assignment `params[k] = v` on a record with
string keys: an existing key keeps its insertion position and only its
value is overwritten; a new key is appended. -/
def recordInsert (m : List (String × ZodField)) (k : String) (v : ZodField) :
    List (String × ZodField) :=
  if m.any (fun p => p.1 = k) then
    m.map (fun p => if p.1 = k then (k, v) else p)
  else m ++ [(k, v)]

/-- `zodPathParametersSchema` of `endpoints.ts`: scan the path template
for `\x7bname\x7d` tokens and build the Zod object shape mapping each
token name to `z.string()`, with JavaScript record-insertion semantics. -/
def zodPathParametersSchema (path : String) : List (String × ZodField) :=
  (extractTokens path.data).foldl (fun m t => recordInsert m t ZodField.string) []

/-- Reference (spec-side) definition: keep the first occurrence of every
element, in order of first appearance. -/
def firstDedup : List String → List String
  | [] => []
  | t :: rest => t :: (firstDedup rest).filter (fun x => x ≠ t)

/-- Proof-helper: `firstDedup` restricted to elements outside `ks`,
threading the keys accumulated so far. -/
def firstDedupExcl (ks : List String) : List String → List String
  | [] => []
  | t :: rest =>
    if t ∈ ks then firstDedupExcl ks rest
    else t :: firstDedupExcl (ks ++ [t]) rest

/-- The key-list effect of one record insertion, as a standalone step. -/
def keyInsertStep (ks : List String) (t : String) : List String :=
  if t ∈ ks then ks else ks ++ [t]

/-! ### Server handler wrapper (`initApiHandler`) -/

/-- The inbound `event.body` string as seen through the platform
`JSON.parse`: the empty string (falsy, never parsed), a string parsing to
a JSON value, or a malformed string on which `JSON.parse` throws. -/
inductive EventBody where
  | empty
  | json (j : Json)
  | malformed

/-- The inbound API Gateway event shape consumed by `initApiHandler`. -/
structure ApiEvent where
  body : Option EventBody := none
  headers : Option (List (String × String)) := none
  httpMethod : String := ""
  path : String := ""
  pathParameters : Option (List (String × String)) := none
  queryStringParameters : Option (List (String × String)) := none

/-- `event.body ? JSON.parse(event.body) : \x7b\x7d`: absent or empty
bodies yield the empty object; malformed bodies throw. -/
def parseEventBody (event : ApiEvent) : Except String Json :=
  match event.body with
  | some (.json j) => .ok j
  | some .malformed => .error "Unexpected token in JSON"
  | _ => .ok (Json.obj [])

/-- JavaScript truthiness of `event.body` (a string: empty is falsy). -/
def eventBodyTruthy (event : ApiEvent) : Bool :=
  match event.body with
  | some (.json _) => true
  | some .malformed => true
  | _ => false

/-- The input-validation step of `initApiHandler`: parse the body, then
run `inputSchema.parse` on it only when a schema is configured and
`event.body` is truthy (errors are thrown into the outer catch). -/
def computeValidatedInput (inputSchema : Option Schema) (event : ApiEvent) :
    Except String Json :=
  match parseEventBody event with
  | .error e => .error e
  | .ok body =>
    match inputSchema with
    | some sch => if eventBodyTruthy event then sch.parse body else .ok body
    | none => .ok body

/-- The normalized argument bundle `initApiHandler` passes to the wrapped
API handler. -/
structure HandlerArgs where
  body : Json
  event : ApiEvent
  headers : List (String × String)
  method : String
  path : String
  pathParameters : List (String × String)
  queryStringParameters : List (String × String)

/-- The bundle built from an event and the validated input. -/
def handlerArgsFor (event : ApiEvent) (validatedInput : Json) : HandlerArgs :=
  { body := validatedInput
    event := event
    headers := event.headers.getD []
    method := event.httpMethod
    path := event.path
    pathParameters := event.pathParameters.getD []
    queryStringParameters := event.queryStringParameters.getD [] }

/-- What a wrapped API handler returns: `\x7b data, headers?, statusCode? \x7d`. -/
structure HandlerOutput where
  data : Json
  headers : Option (List (String × String)) := none
  statusCode : Option Nat := none

/-- The response envelope `initApiHandler` returns to the transport layer. -/
structure ServerResponse where
  body : HttpBody
  headers : Option (List (String × String)) := none
  statusCode : Nat

/-- `handlerOutput.statusCode || 200`: absent (and the falsy `0`) default
to 200. -/
def jsOrStatus200 : Option Nat → Nat
  | none => 200
  | some n => if n = 0 then 200 else n

/-- The serialize step of `initApiHandler`: string data passes through
unchanged, anything else is `JSON.stringify`-encoded. -/
def serializeData : Json → HttpBody
  | .str s => .raw s
  | d => .encoded d

/-- The final serialize step of `initApiHandler` (step 6 of the wrapper):
pass string data through, JSON-encode anything else, default the status
to 200. -/
def finalizeOutput (out : HandlerOutput) : ServerResponse :=
  { body := serializeData out.data
    headers := out.headers
    statusCode := jsOrStatus200 out.statusCode }

/-- `initApiHandler` of `initApiHandler.ts`: parse and validate the
inbound body, invoke the handler (which may throw, modelled by
`Except.error`), validate non-string output data against the response
schema (overriding the whole outcome with an opaque 500 on failure), and
serialize the final envelope; any error thrown before the handler
assigns its output falls through the outer catch to the generic
"Unknown error" 500, because `handlerOutput` is still unset there. -/
def initApiHandler (inputSchema outputSchema : Option Schema)
    (apiHandler : HandlerArgs → Except String HandlerOutput)
    (event : ApiEvent) : ServerResponse :=
  match computeValidatedInput inputSchema event with
  | .error _ => { body := .raw "Unknown error", statusCode := 500 }
  | .ok validatedInput =>
    match apiHandler (handlerArgsFor event validatedInput) with
    | .error _ => { body := .raw "Unknown error", statusCode := 500 }
    | .ok out =>
      match outputSchema with
      | some sch =>
        match out.data with
        | .str _ => finalizeOutput out
        | d =>
          match sch.parse d with
          | .ok d2 => finalizeOutput { out with data := d2 }
          | .error _ => { body := .raw "Internal server error", statusCode := 500 }
      | none => finalizeOutput out

/-! ### Transport invoker (`makeIAMRequest`) and request signer (`signRequest`) -/

/-- A `fetch` response, as far as the status handling observes it. -/
structure FetchResponse where
  status : Nat
  statusText : String
  bodyText : String

/-- `res.ok`: status in the inclusive range 200-299. -/
def responseOk (r : FetchResponse) : Bool := 200 ≤ r.status && r.status ≤ 299

/-- The argument object of `makeIAMRequest`. -/
structure IAMRequestArgs where
  body : Option String := none
  domain : String
  headers : Option (List (String × String)) := none
  method : Option String := none
  path : String
  query : Option (List (String × String)) := none
  allowedStatusCodes : Option (List Nat) := none

/-- `args.allowedStatusCodes || [404]`: an absent list defaults to
`[404]`; any supplied array (even empty - arrays are truthy) is used. -/
def effectiveAllowedStatusCodes (args : IAMRequestArgs) : List Nat :=
  match args.allowedStatusCodes with
  | some l => l
  | none => [404]

/-- The status-handling core of `makeIAMRequest`, with the `fetch` result
supplied as input: check the required `domain` and `path`, tolerate `ok`
responses and allow-listed statuses, and throw on everything else with a
message carrying status code, status text, and response body text.  (The
surrounding `catch` logs and rethrows the same error.) -/
def makeIAMRequest (args : IAMRequestArgs) (res : FetchResponse) :
    Except String FetchResponse :=
  if args.domain = "" then .error "No domain provided"
  else if args.path = "" then .error "No path provided"
  else if responseOk res then .ok res
  else if (effectiveAllowedStatusCodes args).contains res.status then .ok res
  else
    .error ("Error making IAM request - status: " ++ toString res.status ++
      " (" ++ res.statusText ++ "), reason: " ++ res.bodyText)

/-- The environment variables read by `signRequest` / `getSSOCredentials`. -/
structure SignEnv where
  awsAccessKeyId : Option String := none
  awsSecretAccessKey : Option String := none
  awsSessionToken : Option String := none
  awsProfile : Option String := none
  awsDefaultRegion : Option String := none

/-- An environment string under JavaScript truthiness: unset and empty
both count as absent. -/
def envStr : Option String → Option String
  | some s => if s = "" then none else some s
  | none => none

/-- A resolved credential set. -/
structure Credentials where
  accessKeyId : String
  secretAccessKey : String
  sessionToken : Option String := none
deriving DecidableEq, Repr

/-- `getSSOCredentials`: throws when `AWS_PROFILE` is not set; otherwise
resolves via the external SSO provider, supplied here as an oracle. -/
def getSSOCredentials (env : SignEnv) (ssoResult : Credentials) :
    Except String Credentials :=
  match envStr env.awsProfile with
  | none => .error "AWS_PROFILE is not set, possibly not using SSO or not logged in"
  | some _ => .ok ssoResult

/-- The credential-resolution step of `signRequest`: static environment
credentials when both keys are present (truthy), otherwise SSO. -/
def resolveCredentials (env : SignEnv) (ssoResult : Credentials) :
    Except String Credentials :=
  match envStr env.awsAccessKeyId, envStr env.awsSecretAccessKey with
  | some a, some s =>
    .ok { accessKeyId := a, secretAccessKey := s, sessionToken := env.awsSessionToken }
  | _, _ => getSSOCredentials env ssoResult

/-- The configuration handed to the `SignatureV4` constructor. -/
structure SignerConfig where
  service : String
  region : String
  credentials : Credentials

/-- `signRequest` of `iamRequest.ts`, up to the external `v4.sign` call:
resolve credentials and build the `SignatureV4` configuration with
`service: "execute-api"` and `region: process.env.AWS_DEFAULT_REGION || ""`. -/
def signRequestConfig (env : SignEnv) (ssoResult : Credentials) :
    Except String SignerConfig :=
  match resolveCredentials env ssoResult with
  | .error e => .error e
  | .ok creds =>
    .ok { service := "execute-api"
          region := (envStr env.awsDefaultRegion).getD ""
          credentials := creds }

/-! ### Concrete schema values used by the concrete-input theorems -/

/-- A Zod object schema as it checks a non-object value: accept any
object unchanged, reject everything else (the model of
`z.object(...)`'s behaviour on the inputs the theorems below feed it). -/
def objOnlySchema : Schema :=
  ⟨fun j =>
    match j with
    | Json.obj fields => Except.ok (Json.obj fields)
    | _ => Except.error "Expected object, received string"⟩

/-- A schema rejecting every value. -/
def alwaysFailSchema : Schema := ⟨fun _ => Except.error "invalid_type"⟩

/-- A schema accepting every value unchanged. -/
def idSchema : Schema := ⟨fun j => Except.ok j⟩

/-! ### Structured path templates

To reason about the URL-building loop in general, path templates are
described as alternating literal and `\x7bname\x7d` token segments; the
well-formedness predicate requires literal text and token names to be
brace-free, which is exactly the shape the token grammar gives them. -/

/-- A path-template segment: literal text, or one `\x7bname\x7d` token. -/
inductive PathSeg where
  | lit (s : List Char)
  | param (name : List Char)

/-- The characters of one segment. -/
def renderSeg : PathSeg → List Char
  | .lit s => s
  | .param p => lbrace :: p ++ [rbrace]

/-- The characters of a whole template. -/
def renderTemplate (segs : List PathSeg) : List Char := segs.flatMap renderSeg

/-- A character that is neither brace. -/
def braceFreeChar (c : Char) : Bool := !(c = lbrace || c = rbrace)

/-- A character list containing no braces. -/
def braceFree (cs : List Char) : Bool := cs.all braceFreeChar

/-- Segment well-formedness: literals and token names are brace-free. -/
def segWF : PathSeg → Bool
  | .lit s => braceFree s
  | .param p => braceFree p

/-- Template well-formedness. -/
def segsWF (segs : List PathSeg) : Bool := segs.all segWF

/-- Replace the first `param p` segment by the literal `repl`; identity
when no such segment exists.  This is the segment-level effect of one
`url.replace("\x7bp\x7d", repl)` call. -/
def replaceParamFirst (segs : List PathSeg) (p repl : List Char) : List PathSeg :=
  match segs with
  | [] => []
  | .param q :: rest =>
    if q = p then .lit repl :: rest else .param q :: replaceParamFirst rest p repl
  | s :: rest => s :: replaceParamFirst rest p repl

/-- The token names of a template, in order, with duplicates. -/
def paramNamesL (segs : List PathSeg) : List (List Char) :=
  segs.filterMap fun s =>
    match s with
    | .param p => some p
    | _ => none

/-- Look up a path parameter value by token name. -/
def lookupParam (params : List (String × String)) (p : List Char) : String :=
  match params.find? (fun pv => pv.1.data == p) with
  | some pv => pv.2
  | none => ""

/-- The fully substituted template: every token replaced, in place, by the
URL-escaped value of its parameter. -/
def substAllSegs (params : List (String × String)) : List PathSeg → List PathSeg :=
  List.map fun s =>
    match s with
    | .param p => .lit (encodeURIComponentChars (lookupParam params p).data)
    | s => s

/-- The character-level step of the URL-building loop of
`buildClientFunction`, for one `[param, value]` entry. -/
def substStepChars (cur : List Char) (pv : String × String) : List Char :=
  replaceFirstList (lbrace :: pv.1.data ++ [rbrace]) (encodeURIComponentChars pv.2.data) cur

/-- The segment-level step corresponding to `substStepChars`. -/
def substStepSegs (segs : List PathSeg) (pv : String × String) : List PathSeg :=
  replaceParamFirst segs pv.1.data (encodeURIComponentChars pv.2.data)

/-! ## Helper lemmas -/

theorem buildClientPre_ok {domain key : String} {endpoint : ApiEndpointDefinition}
    {params : ClientParams} {req : OutboundRequest}
    (h : buildClientPre domain endpoint key params = Except.ok req) :
    req = clientBuildRequest domain endpoint params := by
  unfold buildClientPre at h
  cases hv : clientValidateBody endpoint key params with
  | some e => rw [hv] at h; simp at h
  | none => rw [hv] at h; simpa using h.symm

/-! ## Claim C1 -/

/-- Claim C1 counterexample: for a GET endpoint with no request schema, an
invocation that supplies a truthy body produces an outbound request whose
`body` field is the serialized supplied body, not `undefined` - the code
serializes `params.body` whenever it is truthy, with no check of the
method, so the claim "for GET/DELETE no body is ever serialized
regardless of a supplied body" is false. -/
theorem c1_counterexample :
    buildClientPre "https://api.example.com"
      { path := "/heroes", method := HttpMethod.GET } "listHeroes"
      { body := some (Json.obj [("name", Json.str "A")]), pathParameters := [] }
      = Except.ok
        { domain := "https://api.example.com", method := HttpMethod.GET,
          headers := none, path := "/heroes", query := none,
          body := some (HttpBody.encoded (Json.obj [("name", Json.str "A")])) } ∧
      some (HttpBody.encoded (Json.obj [("name", Json.str "A")])) ≠ (none : Option HttpBody) :=
  ⟨rfl, Option.some_ne_none _⟩

/-- Claim C1 (amended): for every endpoint, whatever its method, the
generated client function serializes a body into the outbound request
exactly when the supplied body is truthy, and then the serialized body is
`JSON.stringify` of the supplied value; GET/DELETE requests carry no body
only when the caller supplies none (which only the generated static types
enforce), and POST/PUT endpoints serialize the supplied truthy body. -/
theorem c1_body_serialization (domain key : String) (endpoint : ApiEndpointDefinition)
    (params : ClientParams) (req : OutboundRequest)
    (h : buildClientPre domain endpoint key params = Except.ok req) :
    (req.body = none ↔ bodyTruthy params = false) ∧
      ∀ b, params.body = some b → jsTruthy b = true →
        req.body = some (HttpBody.encoded b) := by
  have hreq := buildClientPre_ok h
  subst hreq
  unfold clientBuildRequest bodyTruthy
  refine ⟨?_, ?_⟩
  · cases hb : params.body with
    | none => simp
    | some b =>
      cases ht : jsTruthy b
      · simp [ht]
      · simp [ht]
  · intro b hb ht
    simp [hb, ht]

/-- Witness for the amended C1 theorem at a concrete POST invocation. -/
theorem c1_body_serialization_witness :
    OutboundRequest.body
        { domain := "https://d", method := HttpMethod.POST, headers := none,
          path := "/p", query := none, body := some (HttpBody.encoded (Json.num 5)) }
      = some (HttpBody.encoded (Json.num 5)) :=
  (c1_body_serialization "https://d" "k" { path := "/p", method := HttpMethod.POST }
      { body := some (Json.num 5), pathParameters := [] } _ rfl).2 (Json.num 5) rfl rfl

/-! ## Claim C2 -/

/-- Claim C2 counterexample: a body that fails the request schema but is
falsy (here the empty string, rejected by an object schema) does not make
the generated client function throw: validation is skipped and the
invocation reaches the transport, whose response is returned - so "for
every body that fails that schema, invoking throws before any network
request" is false. -/
theorem c2_counterexample :
    clientInvoke "https://api.example.com"
        { path := "/heroes", method := HttpMethod.POST,
          requestSchema := some objOnlySchema }
        "addHero" { body := some (Json.str ""), pathParameters := [] }
        (fun _ => Except.ok (Json.num 7))
      = { result := Except.ok (Json.num 7), responseWarning := none } ∧
      objOnlySchema.parse (Json.str "") = Except.error "Expected object, received string" :=
  ⟨rfl, rfl⟩

/-- Claim C2 (amended): for every endpoint with a request schema and every
truthy supplied body, a body failing the schema makes the generated
client function throw the validation error before any network request is
constructed, and a body passing the schema proceeds to the transport step
with the built request. -/
theorem c2_truthy_validation (domain key : String) (endpoint : ApiEndpointDefinition)
    (params : ClientParams) (sch : Schema) (b : Json)
    (hsch : endpoint.requestSchema = some sch)
    (hb : params.body = some b) (ht : jsTruthy b = true) :
    (∀ e, sch.parse b = Except.error e →
        buildClientPre domain endpoint key params =
          Except.error ("Validation error in apiClient." ++ key ++ ": " ++ e)) ∧
      ∀ r, sch.parse b = Except.ok r →
        buildClientPre domain endpoint key params =
          Except.ok (clientBuildRequest domain endpoint params) := by
  unfold buildClientPre clientValidateBody
  rw [hsch, hb]
  simp only [ht, if_true]
  constructor
  · intro e he
    rw [he]
  · intro r hr
    rw [hr]

/-- Witness for the amended C2 theorem: an invalid truthy body throws the
validation error, and a valid body reaches the transport. -/
theorem c2_truthy_validation_witness :
    buildClientPre "https://d"
        { path := "/p", method := HttpMethod.POST, requestSchema := some objOnlySchema }
        "add" { body := some (Json.str "x"), pathParameters := [] }
      = Except.error "Validation error in apiClient.add: Expected object, received string" ∧
      buildClientPre "https://d"
        { path := "/p", method := HttpMethod.POST, requestSchema := some objOnlySchema }
        "add" { body := some (Json.obj [("a", Json.num 1)]), pathParameters := [] }
      = Except.ok (clientBuildRequest "https://d"
          { path := "/p", method := HttpMethod.POST, requestSchema := some objOnlySchema }
          { body := some (Json.obj [("a", Json.num 1)]), pathParameters := [] }) :=
  ⟨(c2_truthy_validation "https://d" "add" _ _ objOnlySchema (Json.str "x") rfl rfl rfl).1
      "Expected object, received string" rfl,
    (c2_truthy_validation "https://d" "add" _ _ objOnlySchema (Json.obj [("a", Json.num 1)])
      rfl rfl rfl).2 (Json.obj [("a", Json.num 1)]) rfl⟩

/-! ## Claim C3 -/

/-- Claim C3: when the transport response fails the endpoint's response
schema, the generated client function logs the validation failure (the
warning carries the schema error) but does not throw, and returns the
response unchanged, exactly as it would for a valid response. -/
theorem c3_response_validation_lenient (domain key : String)
    (endpoint : ApiEndpointDefinition) (params : ClientParams)
    (transport : OutboundRequest → Except String Json)
    (req : OutboundRequest) (resp : Json) (sch : Schema) (e : String)
    (hpre : buildClientPre domain endpoint key params = Except.ok req)
    (htr : transport req = Except.ok resp)
    (hsch : endpoint.responseSchema = some sch)
    (hfail : sch.parse resp = Except.error e) :
    clientInvoke domain endpoint key params transport =
      { result := Except.ok resp, responseWarning := some e } := by
  unfold clientInvoke clientResponseCheck
  simp only [hpre, htr, hsch, hfail]

/-- Witness for the C3 theorem at a concrete invocation whose response
fails the response schema. -/
theorem c3_response_validation_lenient_witness :
    clientInvoke "https://d"
        { path := "/p", method := HttpMethod.GET, responseSchema := some alwaysFailSchema }
        "list" { pathParameters := [] } (fun _ => Except.ok (Json.num 9))
      = { result := Except.ok (Json.num 9), responseWarning := some "invalid_type" } :=
  c3_response_validation_lenient "https://d" "list" _ _ _
    (clientBuildRequest "https://d"
      { path := "/p", method := HttpMethod.GET, responseSchema := some alwaysFailSchema }
      { pathParameters := [] })
    (Json.num 9) alwaysFailSchema "invalid_type" rfl rfl rfl rfl

/-! ## Claim C10 -/

/-- Claim C10: with a request schema configured, a falsy supplied body
(absent, null, false, 0, or the empty string) skips client-side
validation entirely: no validation error is raised and the invocation
proceeds to the transport step with the built request, even though the
schema would reject that value. -/
theorem c10_falsy_body_skips_validation (domain key : String)
    (endpoint : ApiEndpointDefinition) (params : ClientParams) (sch : Schema)
    (hsch : endpoint.requestSchema = some sch)
    (hfalsy : bodyTruthy params = false) :
    clientValidateBody endpoint key params = none ∧
      buildClientPre domain endpoint key params =
        Except.ok (clientBuildRequest domain endpoint params) := by
  have hval : clientValidateBody endpoint key params = none := by
    unfold clientValidateBody
    rw [hsch]
    unfold bodyTruthy at hfalsy
    cases hb : params.body with
    | none => rfl
    | some b =>
      rw [hb] at hfalsy
      have hfb : jsTruthy b = false := hfalsy
      simp [hfb]
  exact ⟨hval, by unfold buildClientPre; rw [hval]⟩

/-- Witness for the C10 theorem: the falsy body 0 is rejected by the
schema, yet validation is skipped and the transport step is reached. -/
theorem c10_falsy_body_skips_validation_witness :
    clientValidateBody
        { path := "/p", method := HttpMethod.POST, requestSchema := some objOnlySchema }
        "add" { body := some (Json.num 0), pathParameters := [] } = none ∧
      buildClientPre "https://d"
        { path := "/p", method := HttpMethod.POST, requestSchema := some objOnlySchema }
        "add" { body := some (Json.num 0), pathParameters := [] }
      = Except.ok (clientBuildRequest "https://d"
          { path := "/p", method := HttpMethod.POST, requestSchema := some objOnlySchema }
          { body := some (Json.num 0), pathParameters := [] }) :=
  c10_falsy_body_skips_validation "https://d" "add" _ _ objOnlySchema rfl rfl

/-! ## Claim C4 -/

/-- Claim C4: when a server-wrapped handler returns non-string data that
fails the configured response schema, the wrapper returns exactly
`\x7b statusCode: 500, body: "Internal server error" \x7d`, discarding
the handler's data, status code and headers. -/
theorem c4_response_schema_500 (inputSchema : Option Schema) (sch : Schema)
    (apiHandler : HandlerArgs → Except String HandlerOutput) (event : ApiEvent)
    (v : Json) (out : HandlerOutput) (e : String)
    (hv : computeValidatedInput inputSchema event = Except.ok v)
    (hh : apiHandler (handlerArgsFor event v) = Except.ok out)
    (hns : ∀ s, out.data ≠ Json.str s)
    (hfail : sch.parse out.data = Except.error e) :
    initApiHandler inputSchema (some sch) apiHandler event =
      { body := HttpBody.raw "Internal server error", headers := none, statusCode := 500 } := by
  unfold initApiHandler
  simp only [hv, hh]
  cases hd : out.data with
  | str s => exact absurd hd (hns s)
  | null => rw [hd] at hfail; simp [hfail]
  | bool b => rw [hd] at hfail; simp [hfail]
  | num n => rw [hd] at hfail; simp [hfail]
  | arr elems => rw [hd] at hfail; simp [hfail]
  | obj fields => rw [hd] at hfail; simp [hfail]

/-- Witness for the C4 theorem: a handler returning status 201, custom
headers and an object rejected by the schema still yields exactly the
opaque 500 response. -/
theorem c4_response_schema_500_witness :
    initApiHandler none (some alwaysFailSchema)
        (fun _ => Except.ok
          { data := Json.obj [("secret", Json.num 42)],
            headers := some [("x-h", "v")], statusCode := some 201 })
        {}
      = { body := HttpBody.raw "Internal server error", headers := none, statusCode := 500 } :=
  c4_response_schema_500 none alwaysFailSchema _ {} (Json.obj [])
    { data := Json.obj [("secret", Json.num 42)],
      headers := some [("x-h", "v")], statusCode := some 201 }
    "invalid_type" rfl rfl (fun s h => by simp at h) rfl

/-! ## Claim C5 -/

/-- Claim C5: round-trip - a server-wrapped handler returning
`\x7b data: X, statusCode: 200 \x7d` with X a non-string value the
response schema validates to itself yields a body that JSON-decodes back
to X with final status 200; and when the handler omits `statusCode`, the
final status is 200. -/
theorem c5_roundtrip (inputSchema : Option Schema) (sch : Schema)
    (event : ApiEvent) (v X : Json) (hs : Option (List (String × String)))
    (hv : computeValidatedInput inputSchema event = Except.ok v)
    (hns : ∀ s, X ≠ Json.str s)
    (hmatch : sch.parse X = Except.ok X) :
    (∀ apiHandler : HandlerArgs → Except String HandlerOutput,
        apiHandler (handlerArgsFor event v) =
          Except.ok { data := X, headers := hs, statusCode := some 200 } →
        jsonDecode (initApiHandler inputSchema (some sch) apiHandler event).body = some X ∧
          (initApiHandler inputSchema (some sch) apiHandler event).statusCode = 200) ∧
      ∀ apiHandler : HandlerArgs → Except String HandlerOutput,
        apiHandler (handlerArgsFor event v) =
          Except.ok { data := X, headers := hs, statusCode := none } →
        (initApiHandler inputSchema (some sch) apiHandler event).statusCode = 200 := by
  constructor
  · intro apiHandler hh
    unfold initApiHandler
    simp only [hv, hh]
    cases hd : X with
    | str s => exact absurd hd (hns s)
    | null =>
      subst hd
      simp [hmatch, finalizeOutput, serializeData, jsonDecode, jsOrStatus200]
    | bool b =>
      subst hd
      simp [hmatch, finalizeOutput, serializeData, jsonDecode, jsOrStatus200]
    | num n =>
      subst hd
      simp [hmatch, finalizeOutput, serializeData, jsonDecode, jsOrStatus200]
    | arr elems =>
      subst hd
      simp [hmatch, finalizeOutput, serializeData, jsonDecode, jsOrStatus200]
    | obj fields =>
      subst hd
      simp [hmatch, finalizeOutput, serializeData, jsonDecode, jsOrStatus200]
  · intro apiHandler hh
    unfold initApiHandler
    simp only [hv, hh]
    cases hd : X with
    | str s => exact absurd hd (hns s)
    | null =>
      subst hd
      simp [hmatch, finalizeOutput, jsOrStatus200]
    | bool b =>
      subst hd
      simp [hmatch, finalizeOutput, jsOrStatus200]
    | num n =>
      subst hd
      simp [hmatch, finalizeOutput, jsOrStatus200]
    | arr elems =>
      subst hd
      simp [hmatch, finalizeOutput, jsOrStatus200]
    | obj fields =>
      subst hd
      simp [hmatch, finalizeOutput, jsOrStatus200]

/-- Witness for the C5 round-trip theorem on a concrete object value. -/
theorem c5_roundtrip_witness :
    jsonDecode (initApiHandler none (some idSchema)
        (fun _ => Except.ok
          { data := Json.obj [("a", Json.num 1)], headers := none, statusCode := some 200 })
        {}).body
      = some (Json.obj [("a", Json.num 1)]) ∧
      (initApiHandler none (some idSchema)
        (fun _ => Except.ok
          { data := Json.obj [("a", Json.num 1)], headers := none, statusCode := some 200 })
        {}).statusCode = 200 :=
  (c5_roundtrip none idSchema {} (Json.obj []) (Json.obj [("a", Json.num 1)]) none
      rfl (fun s h => by simp at h) rfl).1 _ rfl

/-! ## Claim C8 -/

/-- Claim C8: a transport response whose status is 2xx or in the
effective allow-list (the caller's list, defaulting to `[404]`) is
returned without throwing; every other status makes `makeIAMRequest`
throw an error carrying the status code, the status text, and the
response body text. -/
theorem c8_status_allowlist (args : IAMRequestArgs) (res : FetchResponse)
    (hd : args.domain ≠ "") (hp : args.path ≠ "") :
    ((responseOk res || (effectiveAllowedStatusCodes args).contains res.status) = true →
        makeIAMRequest args res = Except.ok res) ∧
      ((responseOk res || (effectiveAllowedStatusCodes args).contains res.status) = false →
        makeIAMRequest args res =
          Except.error ("Error making IAM request - status: " ++ toString res.status ++
            " (" ++ res.statusText ++ "), reason: " ++ res.bodyText)) := by
  unfold makeIAMRequest
  rw [if_neg hd, if_neg hp]
  constructor
  · intro h
    rcases Bool.or_eq_true_iff.mp h with h1 | h1
    · simp [h1]
    · cases h2 : responseOk res
      · have h3 : res.status ∈ effectiveAllowedStatusCodes args := by simpa using h1
        simp [h2, h3]
      · simp [h2]
  · intro h
    rcases Bool.or_eq_false_iff.mp h with ⟨h1, h2⟩
    have h3 : ¬ res.status ∈ effectiveAllowedStatusCodes args := by simpa using h2
    simp [h1, h3]

/-- Witness for the C8 theorem, matching the spec scenario: status 500
with the default allow-list throws with status and body text; status 500
with allow-list `[404, 500]` is returned without throwing. -/
theorem c8_status_allowlist_witness :
    makeIAMRequest { domain := "https://d", path := "p" }
        { status := 500, statusText := "ISE", bodyText := "boom" }
      = Except.error "Error making IAM request - status: 500 (ISE), reason: boom" ∧
      makeIAMRequest
        { domain := "https://d", path := "p", allowedStatusCodes := some [404, 500] }
        { status := 500, statusText := "ISE", bodyText := "boom" }
      = Except.ok { status := 500, statusText := "ISE", bodyText := "boom" } :=
  ⟨(c8_status_allowlist { domain := "https://d", path := "p" }
        { status := 500, statusText := "ISE", bodyText := "boom" }
        (by decide) (by decide)).2 rfl,
    (c8_status_allowlist
        { domain := "https://d", path := "p", allowedStatusCodes := some [404, 500] }
        { status := 500, statusText := "ISE", bodyText := "boom" }
        (by decide) (by decide)).1 rfl⟩

/-! ## Claim C9 -/

/-- Claim C9 counterexample: with static credentials configured and
`AWS_DEFAULT_REGION` unset, the signer configuration uses the fixed
service `execute-api` but the region defaults to the empty string, not
to `us-east-1` - so the claimed `us-east-1` default is false. -/
theorem c9_counterexample :
    signRequestConfig
        { awsAccessKeyId := some "AKIA", awsSecretAccessKey := some "SECRET" }
        { accessKeyId := "SSO", secretAccessKey := "SSOSECRET" }
      = Except.ok
        { service := "execute-api", region := "",
          credentials :=
            { accessKeyId := "AKIA", secretAccessKey := "SECRET", sessionToken := none } } ∧
      ("" : String) ≠ "us-east-1" :=
  ⟨rfl, by decide⟩

/-- Claim C9 (amended): the request signer always signs with the fixed
service identifier `execute-api` and with the region taken from the
`AWS_DEFAULT_REGION` environment variable; when that variable is unset
or empty, the region defaults to the empty string. -/
theorem c9_service_and_region (env : SignEnv) (ssoResult : Credentials)
    (cfg : SignerConfig)
    (h : signRequestConfig env ssoResult = Except.ok cfg) :
    cfg.service = "execute-api" ∧
      cfg.region = (envStr env.awsDefaultRegion).getD "" := by
  unfold signRequestConfig at h
  cases hres : resolveCredentials env ssoResult with
  | error e => rw [hres] at h; simp at h
  | ok creds =>
    rw [hres] at h
    simp only [Except.ok.injEq] at h
    rw [← h]
    exact ⟨rfl, rfl⟩

/-- Witness for the amended C9 theorem with an explicitly configured
region. -/
theorem c9_service_and_region_witness :
    SignerConfig.service
        { service := "execute-api", region := "eu-west-1",
          credentials :=
            { accessKeyId := "AKIA", secretAccessKey := "SECRET", sessionToken := none } }
      = "execute-api" ∧
      SignerConfig.region
        { service := "execute-api", region := "eu-west-1",
          credentials :=
            { accessKeyId := "AKIA", secretAccessKey := "SECRET", sessionToken := none } }
      = (envStr (some "eu-west-1")).getD "" :=
  c9_service_and_region
    { awsAccessKeyId := some "AKIA", awsSecretAccessKey := some "SECRET",
      awsDefaultRegion := some "eu-west-1" }
    { accessKeyId := "X", secretAccessKey := "Y" } _ rfl

/-! ## Claim C6 -/

theorem recordInsert_keys (m : List (String × ZodField)) (k : String) (v : ZodField) :
    (recordInsert m k v).map Prod.fst = keyInsertStep (m.map Prod.fst) k := by
  unfold recordInsert keyInsertStep
  by_cases hk : k ∈ m.map Prod.fst
  · have hany : m.any (fun p => p.1 = k) = true := by
      rcases List.mem_map.mp hk with ⟨p, hp, hfst⟩
      exact List.any_eq_true.mpr ⟨p, hp, by simp [hfst]⟩
    rw [if_pos hk, hany]
    simp only [if_true, List.map_map]
    apply List.map_congr_left
    intro p hp
    by_cases h : p.1 = k
    · simp [h]
    · simp [h]
  · have hany : m.any (fun p => p.1 = k) = false := by
      rw [List.any_eq_false]
      intro p hp
      simp only [decide_eq_true_eq]
      intro hfst
      exact hk (List.mem_map.mpr ⟨p, hp, hfst⟩)
    rw [if_neg hk, hany]
    simp

theorem foldl_recordInsert_keys (l : List String) (m : List (String × ZodField)) :
    ((l.foldl (fun m t => recordInsert m t ZodField.string) m).map Prod.fst) =
      l.foldl keyInsertStep (m.map Prod.fst) := by
  induction l generalizing m with
  | nil => rfl
  | cons t rest ih =>
    simp only [List.foldl_cons]
    rw [ih, recordInsert_keys]

theorem foldl_keyInsertStep_eq (l : List String) (ks : List String) :
    l.foldl keyInsertStep ks = ks ++ firstDedupExcl ks l := by
  induction l generalizing ks with
  | nil => simp [firstDedupExcl]
  | cons t rest ih =>
    simp only [List.foldl_cons, keyInsertStep, firstDedupExcl]
    by_cases hk : t ∈ ks
    · rw [if_pos hk, if_pos hk, ih]
    · rw [if_neg hk, if_neg hk, ih, List.append_assoc]
      rfl

theorem firstDedupExcl_eq_filter (l : List String) (ks : List String) :
    firstDedupExcl ks l = (firstDedup l).filter (fun x => !(decide (x ∈ ks))) := by
  induction l generalizing ks with
  | nil => simp [firstDedupExcl, firstDedup]
  | cons t rest ih =>
    simp only [firstDedupExcl, firstDedup]
    by_cases hk : t ∈ ks
    · rw [if_pos hk, ih]
      rw [List.filter_cons]
      simp only [hk, decide_eq_true_eq, if_pos, decide_True, Bool.not_true, Bool.false_eq_true, if_false]
      rw [List.filter_filter]
      apply List.filter_congr
      intro x hx
      by_cases hxk : x ∈ ks
      · simp [hxk]
      · have hxt : x ≠ t := fun he => hxk (he ▸ hk)
        simp [hxk, hxt]
    · rw [if_neg hk, ih]
      rw [List.filter_cons]
      simp only [hk, decide_eq_true_eq, decide_False, Bool.not_false, if_true]
      congr 1
      rw [List.filter_filter]
      apply List.filter_congr
      intro x hx
      by_cases hxt : x = t
      · simp [hxt]
      · by_cases hxk : x ∈ ks <;> simp [hxt, hxk]

theorem firstDedupExcl_nil (l : List String) : firstDedupExcl [] l = firstDedup l := by
  rw [firstDedupExcl_eq_filter]
  apply List.filter_eq_self.mpr
  intro x hx
  simp

theorem firstDedup_nodup (l : List String) : (firstDedup l).Nodup := by
  induction l with
  | nil => exact List.nodup_nil
  | cons t rest ih =>
    simp only [firstDedup]
    refine List.nodup_cons.mpr ⟨?_, ih.filter _⟩
    intro hmem
    have := List.of_mem_filter hmem
    simp at this

theorem mem_firstDedup (x : String) (l : List String) : x ∈ firstDedup l ↔ x ∈ l := by
  induction l with
  | nil => simp [firstDedup]
  | cons t rest ih =>
    simp only [firstDedup, List.mem_cons]
    constructor
    · rintro (h | h)
      · exact Or.inl h
      · exact Or.inr (ih.mp (List.mem_of_mem_filter h))
    · rintro (h | h)
      · exact Or.inl h
      · by_cases hxt : x = t
        · exact Or.inl hxt
        · exact Or.inr (List.mem_filter.mpr ⟨ih.mpr h, by simp [hxt]⟩)

theorem recordInsert_values (m : List (String × ZodField)) (k : String)
    (hm : (m.all fun p => p.2 == ZodField.string) = true) :
    ((recordInsert m k ZodField.string).all fun p => p.2 == ZodField.string) = true := by
  unfold recordInsert
  by_cases hany : (m.any fun p => p.1 = k) = true
  · rw [if_pos hany]
    rw [List.all_eq_true] at hm ⊢
    intro p hp
    rcases List.mem_map.mp hp with ⟨q, hq, hmap⟩
    by_cases h : q.1 = k
    · rw [← hmap]; simp [h]
    · rw [← hmap]; simp only [h, if_false]; exact hm q hq
  · rw [if_neg hany]
    rw [List.all_eq_true] at hm ⊢
    intro p hp
    rcases List.mem_append.mp hp with h | h
    · exact hm p h
    · rw [List.mem_singleton.mp h]
      rfl

theorem zodPathParametersSchema_values (l : List String)
    (m : List (String × ZodField)) (hm : (m.all fun p => p.2 == ZodField.string) = true) :
    ((l.foldl (fun m t => recordInsert m t ZodField.string) m).all
      fun p => p.2 == ZodField.string) = true := by
  induction l generalizing m with
  | nil => exact hm
  | cons t rest ih =>
    simp only [List.foldl_cons]
    exact ih _ (recordInsert_values m t hm)

/-- Claim C6: the derived path-parameter shape has exactly the unique
token names of the template as keys, in order of first occurrence
(`firstDedup` of the regex matches), with no duplicate keys, membership
agreeing with the token list, and every key mapped to the required
string schema `z.string()`. -/
theorem c6_path_parameter_shape (path : String) :
    (zodPathParametersSchema path).map Prod.fst = firstDedup (extractTokens path.data) ∧
      ((zodPathParametersSchema path).map Prod.fst).Nodup ∧
      (∀ t, t ∈ (zodPathParametersSchema path).map Prod.fst ↔
        t ∈ extractTokens path.data) ∧
      ((zodPathParametersSchema path).all fun p => p.2 == ZodField.string) = true := by
  have hkeys : (zodPathParametersSchema path).map Prod.fst =
      firstDedup (extractTokens path.data) := by
    unfold zodPathParametersSchema
    rw [foldl_recordInsert_keys, ]
    show (extractTokens path.data).foldl keyInsertStep [] = _
    rw [foldl_keyInsertStep_eq, firstDedupExcl_nil, List.nil_append]
  refine ⟨hkeys, ?_, ?_, ?_⟩
  · rw [hkeys]; exact firstDedup_nodup _
  · intro t; rw [hkeys]; exact mem_firstDedup t _
  · exact zodPathParametersSchema_values _ [] rfl

/-- Witness-style corollary of the C6 theorem at a concrete template with
a duplicate token. -/
theorem c6_path_parameter_shape_witness :
    (zodPathParametersSchema "/u/\x7bid\x7d/\x7bq\x7d/\x7bid\x7d").map Prod.fst
      = ["id", "q"] := by
  rw [(c6_path_parameter_shape "/u/\x7bid\x7d/\x7bq\x7d/\x7bid\x7d").1]
  rfl

/-! ## Claim C7: brace-freedom of escaped values -/

theorem hexDigitChar_mem (n : Nat) : hexDigitChar n ∈ hexDigits := by
  unfold hexDigitChar
  have h : n % 16 < hexDigits.length := by
    have h16 : n % 16 < 16 := Nat.mod_lt _ (by norm_num)
    simpa [hexDigits] using h16
  rw [List.getD_eq_getElem _ _ h]
  exact List.getElem_mem h

theorem braceFreeChar_hexDigit (n : Nat) : braceFreeChar (hexDigitChar n) = true :=
  (by decide : ∀ c ∈ hexDigits, braceFreeChar c = true) _ (hexDigitChar_mem n)

theorem braceFree_percentByte (b : Nat) : braceFree (percentByte b) = true := by
  simp [percentByte, braceFree, braceFreeChar_hexDigit]
  decide

theorem braceFreeChar_of_unreserved (c : Char) (h : isUnreservedURIChar c = true) :
    braceFreeChar c = true := by
  have h1 : c ≠ lbrace := by
    intro he; rw [he] at h; exact absurd h (by decide)
  have h2 : c ≠ rbrace := by
    intro he; rw [he] at h; exact absurd h (by decide)
  simp [braceFreeChar, h1, h2]

theorem braceFree_append (a b : List Char) :
    braceFree (a ++ b) = (braceFree a && braceFree b) := List.all_append

theorem braceFree_flatMap_percentByte (bs : List Nat) :
    braceFree (bs.flatMap percentByte) = true := by
  induction bs with
  | nil => rfl
  | cons b rest ih =>
    rw [List.flatMap_cons, braceFree_append, braceFree_percentByte, ih]
    rfl

theorem braceFree_encode (cs : List Char) :
    braceFree (encodeURIComponentChars cs) = true := by
  induction cs with
  | nil => rfl
  | cons c rest ih =>
    have hcons : encodeURIComponentChars (c :: rest) =
        (if isUnreservedURIChar c then [c]
          else (utf8Bytes c).flatMap percentByte) ++ encodeURIComponentChars rest := by
      simp [encodeURIComponentChars]
    rw [hcons, braceFree_append, ih, Bool.and_true]
    by_cases hu : isUnreservedURIChar c = true
    · rw [if_pos hu]
      simp [braceFree, braceFreeChar_of_unreserved c hu]
    · rw [if_neg hu]
      exact braceFree_flatMap_percentByte _

/-! ## Claim C7: first-occurrence replacement over a rendered template -/

theorem leadsWith_append_self (a t : List Char) : leadsWith a (a ++ t) = true := by
  induction a with
  | nil => rfl
  | cons c rest ih => simp [leadsWith, ih]

theorem braceFreeChar_ne (c : Char) (h : braceFreeChar c = true) :
    c ≠ lbrace ∧ c ≠ rbrace := by
  constructor
  · intro he; rw [he] at h; exact absurd h (by decide)
  · intro he; rw [he] at h; exact absurd h (by decide)

theorem leadsWith_token_eq (p : List Char) :
    ∀ (q t : List Char), braceFree p = true → braceFree q = true →
      leadsWith (p ++ [rbrace]) (q ++ (rbrace :: t)) = true → p = q := by
  induction p with
  | nil =>
    intro q t _ hq h
    cases q with
    | nil => rfl
    | cons d q2 =>
      exfalso
      simp only [List.nil_append, List.cons_append, leadsWith] at h
      have hd : braceFreeChar d = true := by
        have := List.all_eq_true.mp hq d (List.mem_cons_self d q2)
        simpa using this
      rcases Bool.and_eq_true_iff.mp h with ⟨h1, -⟩
      exact (braceFreeChar_ne d hd).2 ((of_decide_eq_true h1).symm)
  | cons c p2 ih =>
    intro q t hp hq h
    have hc : braceFreeChar c = true := by
      have := List.all_eq_true.mp hp c (List.mem_cons_self c p2)
      simpa using this
    have hp2 : braceFree p2 = true := by
      rw [show braceFree (c :: p2) = (braceFreeChar c && braceFree p2) from rfl] at hp
      exact (Bool.and_eq_true_iff.mp hp).2
    cases q with
    | nil =>
      exfalso
      simp only [List.cons_append, List.nil_append, leadsWith] at h
      rcases Bool.and_eq_true_iff.mp h with ⟨h1, -⟩
      exact (braceFreeChar_ne c hc).2 (of_decide_eq_true h1)
    | cons d q2 =>
      have hq2 : braceFree q2 = true := by
        rw [show braceFree (d :: q2) = (braceFreeChar d && braceFree q2) from rfl] at hq
        exact (Bool.and_eq_true_iff.mp hq).2
      simp only [List.cons_append, leadsWith] at h
      rcases Bool.and_eq_true_iff.mp h with ⟨h1, h2⟩
      have : p2 = q2 := ih q2 t hp2 hq2 h2
      rw [of_decide_eq_true h1, this]

theorem replaceFirstList_skipBraceFree (pp repl : List Char) :
    ∀ (s t : List Char), braceFree s = true →
      replaceFirstList (lbrace :: pp) repl (s ++ t) =
        s ++ replaceFirstList (lbrace :: pp) repl t := by
  intro s
  induction s with
  | nil => intro t _; rfl
  | cons c s2 ih =>
    intro t hs
    have hc : braceFreeChar c = true := by
      have := List.all_eq_true.mp hs c (List.mem_cons_self c s2)
      simpa using this
    have hs2 : braceFree s2 = true := by
      rw [show braceFree (c :: s2) = (braceFreeChar c && braceFree s2) from rfl] at hs
      exact (Bool.and_eq_true_iff.mp hs).2
    have hne : leadsWith (lbrace :: pp) (c :: (s2 ++ t)) = false := by
      simp only [leadsWith]
      have : ¬ lbrace = c := fun he => (braceFreeChar_ne c hc).1 he.symm
      simp [this]
    rw [List.cons_append, replaceFirstList, hne]
    simp only [Bool.false_eq_true, if_false]
    rw [ih t hs2, List.cons_append]

theorem replaceFirst_render (p repl : List Char) (segs : List PathSeg)
    (hp : braceFree p = true) (hwf : segsWF segs = true) :
    replaceFirstList (lbrace :: (p ++ [rbrace])) repl (renderTemplate segs) =
      renderTemplate (replaceParamFirst segs p repl) := by
  induction segs with
  | nil => rfl
  | cons sg rest ih =>
    have hsg : segWF sg = true := by
      rw [show segsWF (sg :: rest) = (segWF sg && segsWF rest) from rfl] at hwf
      exact (Bool.and_eq_true_iff.mp hwf).1
    have hrest : segsWF rest = true := by
      rw [show segsWF (sg :: rest) = (segWF sg && segsWF rest) from rfl] at hwf
      exact (Bool.and_eq_true_iff.mp hwf).2
    cases sg with
    | lit s =>
      have hrender : renderTemplate (PathSeg.lit s :: rest) = s ++ renderTemplate rest := rfl
      rw [hrender, replaceFirstList_skipBraceFree (p ++ [rbrace]) repl s _ hsg, ih hrest]
      rfl
    | param q =>
      have hrender : renderTemplate (PathSeg.param q :: rest) =
          lbrace :: (q ++ (rbrace :: renderTemplate rest)) := by
        simp [renderTemplate, renderSeg]
      have hassoc : lbrace :: (q ++ (rbrace :: renderTemplate rest)) =
          (lbrace :: (q ++ [rbrace])) ++ renderTemplate rest := by
        simp
      by_cases hq : q = p
      · subst hq
        have hlw : leadsWith (lbrace :: (q ++ [rbrace]))
            (lbrace :: (q ++ (rbrace :: renderTemplate rest))) = true := by
          rw [hassoc]
          exact leadsWith_append_self _ _
        rw [hrender]
        rw [show replaceFirstList (lbrace :: (q ++ [rbrace])) repl
              (lbrace :: (q ++ (rbrace :: renderTemplate rest))) =
            if leadsWith (lbrace :: (q ++ [rbrace]))
                (lbrace :: (q ++ (rbrace :: renderTemplate rest))) then
              repl ++ (lbrace :: (q ++ (rbrace :: renderTemplate rest))).drop
                (lbrace :: (q ++ [rbrace])).length
            else lbrace :: replaceFirstList (lbrace :: (q ++ [rbrace])) repl
              (q ++ (rbrace :: renderTemplate rest)) from rfl]
        rw [hlw]
        simp only [if_true]
        have hdrop : (lbrace :: (q ++ (rbrace :: renderTemplate rest))).drop
            (lbrace :: (q ++ [rbrace])).length = renderTemplate rest := by
          rw [hassoc, List.drop_left]
        rw [hdrop]
        have hrepl : replaceParamFirst (PathSeg.param q :: rest) q repl =
            PathSeg.lit repl :: rest := by
          simp [replaceParamFirst]
        rw [hrepl]
        rfl
      · have hqbf : braceFree q = true := hsg
        have hlwf : leadsWith (lbrace :: (p ++ [rbrace]))
            (lbrace :: (q ++ (rbrace :: renderTemplate rest))) = false := by
          simp only [leadsWith]
          cases hlw2 : leadsWith (p ++ [rbrace]) (q ++ (rbrace :: renderTemplate rest)) with
          | false => simp
          | true =>
            exact absurd (leadsWith_token_eq p q (renderTemplate rest) hp hqbf hlw2)
              (fun he => hq he.symm)
        rw [hrender]
        rw [show replaceFirstList (lbrace :: (p ++ [rbrace])) repl
              (lbrace :: (q ++ (rbrace :: renderTemplate rest))) =
            if leadsWith (lbrace :: (p ++ [rbrace]))
                (lbrace :: (q ++ (rbrace :: renderTemplate rest))) then
              repl ++ (lbrace :: (q ++ (rbrace :: renderTemplate rest))).drop
                (lbrace :: (p ++ [rbrace])).length
            else lbrace :: replaceFirstList (lbrace :: (p ++ [rbrace])) repl
              (q ++ (rbrace :: renderTemplate rest)) from rfl]
        rw [hlwf]
        simp only [Bool.false_eq_true, if_false]
        rw [replaceFirstList_skipBraceFree (p ++ [rbrace]) repl q _ hqbf]
        have hstep : replaceFirstList (lbrace :: (p ++ [rbrace])) repl
            (rbrace :: renderTemplate rest) =
            rbrace :: replaceFirstList (lbrace :: (p ++ [rbrace])) repl
              (renderTemplate rest) := by
          rw [show replaceFirstList (lbrace :: (p ++ [rbrace])) repl
                (rbrace :: renderTemplate rest) =
              if leadsWith (lbrace :: (p ++ [rbrace])) (rbrace :: renderTemplate rest) then
                repl ++ (rbrace :: renderTemplate rest).drop
                  (lbrace :: (p ++ [rbrace])).length
              else rbrace :: replaceFirstList (lbrace :: (p ++ [rbrace])) repl
                (renderTemplate rest) from rfl]
          have hne : leadsWith (lbrace :: (p ++ [rbrace]))
              (rbrace :: renderTemplate rest) = false := by
            simp only [leadsWith]
            have : ¬ lbrace = rbrace := by decide
            simp [this]
          rw [hne]
          simp
        rw [hstep, ih hrest]
        have hrepl : replaceParamFirst (PathSeg.param q :: rest) p repl =
            PathSeg.param q :: replaceParamFirst rest p repl := by
          simp [replaceParamFirst, hq]
        rw [hrepl]
        simp [renderTemplate, renderSeg]

/-! ## Claim C7: lifting one replacement to the parameter fold -/

theorem paramNamesL_cons_lit (s : List Char) (l : List PathSeg) :
    paramNamesL (PathSeg.lit s :: l) = paramNamesL l := rfl

theorem paramNamesL_cons_param (q : List Char) (l : List PathSeg) :
    paramNamesL (PathSeg.param q :: l) = q :: paramNamesL l := rfl

theorem segsWF_replaceParamFirst (p repl : List Char) (hrepl : braceFree repl = true) :
    ∀ segs : List PathSeg, segsWF segs = true →
      segsWF (replaceParamFirst segs p repl) = true := by
  intro segs
  induction segs with
  | nil => intro _; rfl
  | cons sg rest ih =>
    intro hwf
    have hsg : segWF sg = true := by
      rw [show segsWF (sg :: rest) = (segWF sg && segsWF rest) from rfl] at hwf
      exact (Bool.and_eq_true_iff.mp hwf).1
    have hrest : segsWF rest = true := by
      rw [show segsWF (sg :: rest) = (segWF sg && segsWF rest) from rfl] at hwf
      exact (Bool.and_eq_true_iff.mp hwf).2
    cases sg with
    | lit s =>
      show segsWF (PathSeg.lit s :: replaceParamFirst rest p repl) = true
      rw [show segsWF (PathSeg.lit s :: replaceParamFirst rest p repl) =
        (segWF (PathSeg.lit s) && segsWF (replaceParamFirst rest p repl)) from rfl]
      rw [hsg, ih hrest]
      rfl
    | param q =>
      by_cases hq : q = p
      · rw [show replaceParamFirst (PathSeg.param q :: rest) p repl =
          PathSeg.lit repl :: rest from by simp [replaceParamFirst, hq]]
        rw [show segsWF (PathSeg.lit repl :: rest) =
          (braceFree repl && segsWF rest) from rfl]
        rw [hrepl, hrest]
        rfl
      · rw [show replaceParamFirst (PathSeg.param q :: rest) p repl =
          PathSeg.param q :: replaceParamFirst rest p repl from by
            simp [replaceParamFirst, hq]]
        rw [show segsWF (PathSeg.param q :: replaceParamFirst rest p repl) =
          (segWF (PathSeg.param q) && segsWF (replaceParamFirst rest p repl)) from rfl]
        rw [hsg, ih hrest]
        rfl

theorem paramNamesL_replaceParamFirst (p repl : List Char) :
    ∀ segs : List PathSeg,
      paramNamesL (replaceParamFirst segs p repl) = (paramNamesL segs).erase p := by
  intro segs
  induction segs with
  | nil => rfl
  | cons sg rest ih =>
    cases sg with
    | lit s =>
      show paramNamesL (PathSeg.lit s :: replaceParamFirst rest p repl) = _
      rw [paramNamesL_cons_lit, paramNamesL_cons_lit, ih]
    | param q =>
      by_cases hq : q = p
      · rw [show replaceParamFirst (PathSeg.param q :: rest) p repl =
          PathSeg.lit repl :: rest from by simp [replaceParamFirst, hq]]
        rw [paramNamesL_cons_lit, paramNamesL_cons_param, List.erase_cons]
        simp [hq]
      · rw [show replaceParamFirst (PathSeg.param q :: rest) p repl =
          PathSeg.param q :: replaceParamFirst rest p repl from by
            simp [replaceParamFirst, hq]]
        rw [paramNamesL_cons_param, paramNamesL_cons_param, List.erase_cons, ih]
        simp [hq]

theorem replaceParamFirst_not_mem (p repl : List Char) :
    ∀ segs : List PathSeg, ¬ p ∈ paramNamesL segs →
      replaceParamFirst segs p repl = segs := by
  intro segs
  induction segs with
  | nil => intro _; rfl
  | cons sg rest ih =>
    intro h
    cases sg with
    | lit s =>
      show PathSeg.lit s :: replaceParamFirst rest p repl = _
      rw [ih h]
    | param q =>
      rw [paramNamesL_cons_param] at h
      have hq : ¬ q = p := fun he => h (he ▸ List.mem_cons_self q (paramNamesL rest))
      rw [show replaceParamFirst (PathSeg.param q :: rest) p repl =
        PathSeg.param q :: replaceParamFirst rest p repl from by
          simp [replaceParamFirst, hq]]
      rw [ih (fun hm => h (List.mem_cons_of_mem q hm))]

theorem lookupParam_cons_hit (k v : String) (rest : List (String × String))
    (q : List Char) (h : k.data = q) : lookupParam ((k, v) :: rest) q = v := by
  unfold lookupParam
  rw [List.find?_cons_of_pos]
  simp [h]

theorem lookupParam_cons_skip (k v : String) (rest : List (String × String))
    (q : List Char) (h : ¬ k.data = q) :
    lookupParam ((k, v) :: rest) q = lookupParam rest q := by
  unfold lookupParam
  rw [List.find?_cons_of_neg]
  simp [h]

theorem substAll_cons_lit (params : List (String × String)) (s : List Char)
    (l : List PathSeg) :
    substAllSegs params (PathSeg.lit s :: l) = PathSeg.lit s :: substAllSegs params l := rfl

theorem substAll_cons_param (params : List (String × String)) (q : List Char)
    (l : List PathSeg) :
    substAllSegs params (PathSeg.param q :: l) =
      PathSeg.lit (encodeURIComponentChars (lookupParam params q).data) ::
        substAllSegs params l := rfl

theorem substAll_cons_skip (k v : String) (restP : List (String × String)) :
    ∀ segs : List PathSeg, ¬ k.data ∈ paramNamesL segs →
      substAllSegs ((k, v) :: restP) segs = substAllSegs restP segs := by
  intro segs
  induction segs with
  | nil => intro _; rfl
  | cons sg rest ih =>
    intro h
    cases sg with
    | lit s =>
      rw [substAll_cons_lit, substAll_cons_lit, ih h]
    | param q =>
      rw [paramNamesL_cons_param] at h
      have hq : ¬ k.data = q := fun he => h (he ▸ List.mem_cons_self q (paramNamesL rest))
      rw [substAll_cons_param, substAll_cons_param,
        lookupParam_cons_skip k v restP q hq,
        ih (fun hm => h (List.mem_cons_of_mem q hm))]

theorem substAll_cons_hit (k v : String) (restP : List (String × String)) :
    ∀ segs : List PathSeg, (paramNamesL segs).Nodup →
      substAllSegs ((k, v) :: restP) segs =
        substAllSegs restP
          (replaceParamFirst segs k.data (encodeURIComponentChars v.data)) := by
  intro segs
  induction segs with
  | nil => intro _; rfl
  | cons sg rest ih =>
    intro hnd
    cases sg with
    | lit s =>
      rw [substAll_cons_lit]
      rw [show replaceParamFirst (PathSeg.lit s :: rest) k.data
          (encodeURIComponentChars v.data) =
        PathSeg.lit s :: replaceParamFirst rest k.data
          (encodeURIComponentChars v.data) from rfl]
      rw [substAll_cons_lit, ih hnd]
    | param q =>
      rw [paramNamesL_cons_param] at hnd
      by_cases hq : q = k.data
      · have hknotin : ¬ k.data ∈ paramNamesL rest := by
          intro hm
          exact (List.nodup_cons.mp hnd).1 (hq ▸ hm)
        rw [show replaceParamFirst (PathSeg.param q :: rest) k.data
            (encodeURIComponentChars v.data) =
          PathSeg.lit (encodeURIComponentChars v.data) :: rest from by
            simp [replaceParamFirst, hq]]
        rw [substAll_cons_param, substAll_cons_lit,
          lookupParam_cons_hit k v restP q hq.symm,
          substAll_cons_skip k v restP rest hknotin]
      · rw [show replaceParamFirst (PathSeg.param q :: rest) k.data
            (encodeURIComponentChars v.data) =
          PathSeg.param q :: replaceParamFirst rest k.data
            (encodeURIComponentChars v.data) from by
            simp [replaceParamFirst, hq]]
        rw [substAll_cons_param, substAll_cons_param,
          lookupParam_cons_skip k v restP q (fun he => hq he.symm),
          ih (List.nodup_cons.mp hnd).2]

theorem substAll_no_params (params : List (String × String)) :
    ∀ segs : List PathSeg, paramNamesL segs = [] →
      substAllSegs params segs = segs := by
  intro segs
  induction segs with
  | nil => intro _; rfl
  | cons sg rest ih =>
    intro h
    cases sg with
    | lit s =>
      rw [substAll_cons_lit, ih h]
    | param q =>
      rw [paramNamesL_cons_param] at h
      simp at h

theorem foldl_substStepSegs_eq_substAll (params : List (String × String)) :
    ∀ segs : List PathSeg, (paramNamesL segs).Nodup →
      (params.map fun pv => pv.1.data).Nodup →
      (∀ q ∈ paramNamesL segs, q ∈ params.map fun pv => pv.1.data) →
      params.foldl substStepSegs segs = substAllSegs params segs := by
  induction params with
  | nil =>
    intro segs _ _ hcover
    have hn : paramNamesL segs = [] := by
      cases hns : paramNamesL segs with
      | nil => rfl
      | cons q qs =>
        exact absurd (hcover q (by rw [hns]; exact List.mem_cons_self q qs)) (by simp)
    rw [List.foldl_nil, substAll_no_params _ _ hn]
  | cons kv restP ih =>
    intro segs hnodup hkeys hcover
    obtain ⟨k, v⟩ := kv
    by_cases hk : k.data ∈ paramNamesL segs
    · rw [List.foldl_cons]
      rw [show substStepSegs segs (k, v) =
        replaceParamFirst segs k.data (encodeURIComponentChars v.data) from rfl]
      rw [substAll_cons_hit k v restP segs hnodup]
      apply ih
      · rw [paramNamesL_replaceParamFirst]
        exact hnodup.erase _
      · exact (List.nodup_cons.mp hkeys).2
      · intro q hq
        rw [paramNamesL_replaceParamFirst] at hq
        have hqk : q ≠ k.data := ((List.Nodup.mem_erase_iff hnodup).mp hq).1
        have hqs : q ∈ paramNamesL segs := ((List.Nodup.mem_erase_iff hnodup).mp hq).2
        have hqcover := hcover q hqs
        simp only [List.map_cons, List.mem_cons] at hqcover
        rcases hqcover with h1 | h1
        · exact absurd h1 hqk
        · exact h1
    · rw [List.foldl_cons]
      rw [show substStepSegs segs (k, v) =
        replaceParamFirst segs k.data (encodeURIComponentChars v.data) from rfl]
      rw [replaceParamFirst_not_mem _ _ segs hk]
      rw [substAll_cons_skip k v restP segs hk]
      apply ih segs hnodup (List.nodup_cons.mp hkeys).2
      intro q hq
      have := hcover q hq
      simp only [List.map_cons, List.mem_cons] at this
      rcases this with h1 | h1
      · exact absurd (h1 ▸ hq) hk
      · exact h1

theorem foldl_jsReplace_data (params : List (String × String)) :
    ∀ s : String,
      (params.foldl
        (fun url pv =>
          jsReplaceFirst url ⟨lbrace :: pv.1.data ++ [rbrace]⟩ (encodeURIComponent pv.2))
        s).data = params.foldl substStepChars s.data := by
  induction params with
  | nil => intro s; rfl
  | cons pv rest ih =>
    intro s
    rw [List.foldl_cons, List.foldl_cons, ih]
    rfl

theorem substitutePath_data (path : String) (params : List (String × String)) :
    (substitutePath path params).data =
      params.foldl substStepChars (normalizeLeadingSlash path).data := by
  unfold substitutePath
  exact foldl_jsReplace_data params (normalizeLeadingSlash path)

theorem foldl_substStep_render (params : List (String × String)) :
    ∀ segs : List PathSeg, segsWF segs = true →
      (∀ pv ∈ params, braceFree pv.1.data = true) →
      params.foldl substStepChars (renderTemplate segs) =
        renderTemplate (params.foldl substStepSegs segs) := by
  induction params with
  | nil => intro segs _ _; rfl
  | cons pv rest ih =>
    intro segs hwf hbf
    rw [List.foldl_cons, List.foldl_cons]
    have hstep : substStepChars (renderTemplate segs) pv =
        renderTemplate (substStepSegs segs pv) := by
      show replaceFirstList (lbrace :: (pv.1.data ++ [rbrace]))
          (encodeURIComponentChars pv.2.data) (renderTemplate segs) = _
      exact replaceFirst_render _ _ segs (hbf pv (List.mem_cons_self _ _)) hwf
    rw [hstep]
    exact ih _
      (segsWF_replaceParamFirst _ _ (braceFree_encode _) segs hwf)
      (fun q hq => hbf q (List.mem_cons_of_mem _ hq))

/-! ## Claim C7: the claim and its amendment -/

/-- Claim C7 counterexample: JavaScript `String.replace` with a string
pattern replaces only the first occurrence, so a template with a
duplicate token keeps its second `\x7bx\x7d` literally in the outbound
path - the claim "substitutes every occurrence" is false. -/
theorem c7_counterexample :
    buildClientPre "https://d"
        { path := "/h/\x7bx\x7d/\x7bx\x7d", method := HttpMethod.GET } "get"
        { pathParameters := [("x", "v")] }
      = Except.ok
        { domain := "https://d", method := HttpMethod.GET, headers := none,
          path := "/h/v/\x7bx\x7d", query := none, body := none } ∧
      ("/h/v/\x7bx\x7d" : String) ≠ "/h/v/v" :=
  ⟨rfl, by decide⟩

/-- Claim C7 (amended): the generated client function substitutes, for
each supplied path parameter in order, the first occurrence of its
`\x7bparam\x7d` token with the URL-escaped (`encodeURIComponent`) value;
consequently, for every well-formed template in which each token name
appears at most once and every pathParameters mapping covering the
template's tokens (with brace-free, duplicate-free keys), every token
occurrence in the path template is substituted with the URL-escaped
value of that parameter before the request is sent. -/
theorem c7_substitution (segs : List PathSeg) (params : List (String × String))
    (hwf : segsWF segs = true)
    (hslash : normalizeLeadingSlash ⟨renderTemplate segs⟩ = ⟨renderTemplate segs⟩)
    (hnamesbf : ∀ pv ∈ params, braceFree pv.1.data = true)
    (hnodup : (paramNamesL segs).Nodup)
    (hkeys : (params.map fun pv => pv.1.data).Nodup)
    (hcover : ∀ q ∈ paramNamesL segs, q ∈ params.map fun pv => pv.1.data) :
    substitutePath ⟨renderTemplate segs⟩ params =
      ⟨renderTemplate (substAllSegs params segs)⟩ := by
  have hdata : (substitutePath ⟨renderTemplate segs⟩ params).data =
      renderTemplate (substAllSegs params segs) := by
    rw [substitutePath_data, hslash]
    show params.foldl substStepChars (renderTemplate segs) = _
    rw [foldl_substStep_render params segs hwf hnamesbf,
      foldl_substStepSegs_eq_substAll params segs hnodup hkeys hcover]
  cases hs : substitutePath ⟨renderTemplate segs⟩ params with
  | mk data => rw [hs] at hdata; rw [← hdata]

/-- Witness for the amended C7 theorem: a two-token template with
parameters supplied out of order, one value needing escaping. -/
theorem c7_substitution_witness :
    substitutePath "/u/\x7bid\x7d/p/\x7bpid\x7d" [("pid", "P x"), ("id", "I")]
      = "/u/I/p/P%20x" := by
  have h := c7_substitution
    [PathSeg.lit "/u/".data, PathSeg.param "id".data,
      PathSeg.lit "/p/".data, PathSeg.param "pid".data]
    [("pid", "P x"), ("id", "I")]
    (by decide) (by decide) (by decide) (by decide) (by decide) (by decide)
  have e1 : (⟨renderTemplate
      [PathSeg.lit "/u/".data, PathSeg.param "id".data,
        PathSeg.lit "/p/".data, PathSeg.param "pid".data]⟩ : String)
      = "/u/\x7bid\x7d/p/\x7bpid\x7d" := by decide
  have e2 : (⟨renderTemplate (substAllSegs [("pid", "P x"), ("id", "I")]
      [PathSeg.lit "/u/".data, PathSeg.param "id".data,
        PathSeg.lit "/p/".data, PathSeg.param "pid".data])⟩ : String)
      = "/u/I/p/P%20x" := by decide
  rw [e1, e2] at h
  exact h

end CZA
